import Mathlib

set_option maxRecDepth 20000

/-!
Verification development for `schema_updates.py`, a script that rewrites a
Prisma schema document: for each model name in a fixed list it applies three
`re.sub` passes that insert an `organizationId` field, an `organization`
relation, and an `@@index` annotation into the named model block.

The regular expressions of the script are embedded as values of a small
expression type `RE`, and `mrun` is a backtracking matcher implementing the
Python `re` semantics for the constructs that occur in the three patterns
(literals, single-character classes, lazy star over a class, greedy plus and
star over a class, concatenation).  `subAll` implements `re.sub` for a
pattern split into two capture groups `(r1)(r2)` whose replacement is
`\1 <ins> \2`, i.e. insertion of a fixed string between the two groups.
-/

/-- Regex expressions occurring in the three patterns of the script. -/
inductive RE where
  | lit (l : List Char) : RE
  | cls (p : Char → Bool) : RE
  | starL (p : Char → Bool) : RE
  | plusG (p : Char → Bool) : RE
  | starG (p : Char → Bool) : RE
  | seq (a b : RE) : RE

/-- Lazy star `p*?`: try the continuation first, then consume one `p`-char. -/
def lazyStar {α : Type} (p : Char → Bool) : List Char → (List Char → Option α) → Option α
  | [], k => k []
  | c :: rest, k =>
    match k (c :: rest) with
    | some v => some v
    | none => if p c then lazyStar p rest k else none

/-- Greedy star `p*`: consume as much as possible first, then backtrack. -/
def gstar {α : Type} (p : Char → Bool) : List Char → (List Char → Option α) → Option α
  | [], k => k []
  | c :: rest, k =>
    if p c then
      match gstar p rest k with
      | some v => some v
      | none => k (c :: rest)
    else k (c :: rest)

/-- Greedy plus `p+`: one mandatory `p`-char, then a greedy star. -/
def pplus {α : Type} (p : Char → Bool) (s : List Char) (k : List Char → Option α) : Option α :=
  match s with
  | [] => none
  | c :: rest => if p c then gstar p rest k else none

/-- Backtracking matcher in continuation-passing style: tries to match a
prefix of the input and calls the continuation on the unconsumed rest,
exploring the alternatives in the order of the Python `re` engine. -/
def mrun {α : Type} : RE → List Char → (List Char → Option α) → Option α
  | .lit l, s, k => if l.isPrefixOf s then k (s.drop l.length) else none
  | .cls p, s, k =>
    match s with
    | [] => none
    | c :: rest => if p c then k rest else none
  | .starL p, s, k => lazyStar p s k
  | .plusG p, s, k => pplus p s k
  | .starG p, s, k => gstar p s k
  | .seq a b, s, k => mrun a s (fun t => mrun b t k)

/-- Match the two-group pattern `(r1)(r2)` at the start of `s`; on success
return the rest of the input after group 1 and after group 2. -/
def matchPat (r1 r2 : RE) (s : List Char) : Option (List Char × List Char) :=
  mrun r1 s (fun t1 => mrun r2 t1 (fun t2 => some (t1, t2)))

/-- `re.sub` for the pattern `(r1)(r2)` with replacement `\1 ++ ins ++ \2`:
scan left to right, replace each non-overlapping match, continue after the
matched text.  Fuel-driven; the wrapper `subAll` supplies enough fuel. -/
def subAllF (r1 r2 : RE) (ins : List Char) : Nat → List Char → List Char
  | 0, s => s
  | fuel + 1, s =>
    match matchPat r1 r2 s with
    | none =>
      match s with
      | [] => []
      | c :: rest => c :: subAllF r1 r2 ins fuel rest
    | some (t1, t2) =>
      if s.length - t1.length + (t1.length - t2.length) = 0 then
        match s with
        | [] => ins
        | c :: rest => ins ++ c :: subAllF r1 r2 ins fuel rest
      else
        s.take (s.length - t1.length) ++ ins ++
          (s.drop (s.length - t1.length)).take (t1.length - t2.length) ++
          subAllF r1 r2 ins fuel (s.drop (s.length - t1.length + (t1.length - t2.length)))

def subAll (r1 r2 : RE) (ins : List Char) (s : List Char) : List Char :=
  subAllF r1 r2 ins (s.length + 1) s

/-- Python `\s` for `str` patterns (Unicode whitespace). -/
def isPySpace (c : Char) : Bool :=
  c.toNat == 32 || c.toNat == 9 || c.toNat == 10 || c.toNat == 13 ||
  c.toNat == 11 || c.toNat == 12 || c.toNat == 28 || c.toNat == 29 ||
  c.toNat == 30 || c.toNat == 31 || c.toNat == 133 || c.toNat == 160 ||
  c.toNat == 5760 || (8192 ≤ c.toNat && c.toNat ≤ 8202) || c.toNat == 8232 ||
  c.toNat == 8233 || c.toNat == 8239 || c.toNat == 8287 || c.toNat == 12288

/-- `[a-zA-Z_]`. -/
def isIdentStart (c : Char) : Bool :=
  (97 ≤ c.toNat && c.toNat ≤ 122) || (65 ≤ c.toNat && c.toNat ≤ 90) || c.toNat == 95

/-- `[a-zA-Z0-9_]`. -/
def isIdentCont (c : Char) : Bool :=
  isIdentStart c || (48 ≤ c.toNat && c.toNat ≤ 57)

/-- `[^}]`. -/
def nonBrace (c : Char) : Bool :=
  c.toNat != 125

/-- The literal opening of a model block: `model <name> {`. -/
def mh (X : List Char) : List Char :=
  "model ".toList ++ X ++ " \x7b".toList

def cid : List Char := "createdById".toList

def strLit : List Char := "String".toList

def mrk : List Char := "// Relations".toList

def cby : List Char := "createdBy".toList

def brk : List Char := "[]".toList

def cls : List Char := "\x7d".toList

/-- Group 1 of the field-injection pattern:
`model X \{[^}]*?createdById\s+String[^}]*?`. -/
def p1r1 (X : List Char) : RE :=
  .seq (.lit (mh X)) (.seq (.starL nonBrace) (.seq (.lit cid)
    (.seq (.plusG isPySpace) (.seq (.lit strLit) (.starL nonBrace)))))

/-- Group 2 of the field-injection pattern: `\s+// Relations`. -/
def p1r2 : RE :=
  .seq (.plusG isPySpace) (.lit mrk)

/-- Group 1 of the relation-injection pattern:
`model X \{[^}]*?// Relations[^}]*?createdBy[^}]*?`. -/
def p2r1 (X : List Char) : RE :=
  .seq (.lit (mh X)) (.seq (.starL nonBrace) (.seq (.lit mrk)
    (.seq (.starL nonBrace) (.seq (.lit cby) (.starL nonBrace)))))

/-- Group 2 of the relation-injection pattern:
`\s+[a-zA-Z_][a-zA-Z0-9_]*\s+[^}]*?\[\]`. -/
def p2r2 : RE :=
  .seq (.plusG isPySpace) (.seq (.cls isIdentStart) (.seq (.starG isIdentCont)
    (.seq (.plusG isPySpace) (.seq (.starL nonBrace) (.lit brk)))))

/-- Group 1 of the index-injection pattern: `model X \{[^}]*?`. -/
def p3r1 (X : List Char) : RE :=
  .seq (.lit (mh X)) (.starL nonBrace)

/-- Group 2 of the index-injection pattern: `\}`. -/
def p3r2 : RE :=
  .lit cls

/-- Text inserted by the field-injection pass. -/
def ins1 : List Char :=
  "\n  organizationId  String?   // Made optional for safe migration".toList

/-- Text inserted by the relation-injection pass. -/
def ins2 : List Char :=
  "\n  organization    Organization? @relation(fields: [organizationId], references: [id])".toList

/-- Text inserted by the index-injection pass. -/
def ins3 : List Char :=
  "\n\n  @@index([organizationId])".toList

/-- First `re.sub` of `add_organization_id_to_model`. -/
def fieldPass (X content : List Char) : List Char :=
  subAll (p1r1 X) p1r2 ins1 content

/-- Second `re.sub` of `add_organization_id_to_model`. -/
def relationPass (X content : List Char) : List Char :=
  subAll (p2r1 X) p2r2 ins2 content

/-- Third `re.sub` of `add_organization_id_to_model`. -/
def indexPass (X content : List Char) : List Char :=
  subAll (p3r1 X) p3r2 ins3 content

/-- `add_organization_id_to_model(content, model_name)`: the three sequential
substitution passes of the script. -/
def add_organization_id_to_model (content model_name : List Char) : List Char :=
  indexPass model_name (relationPass model_name (fieldPass model_name content))

/-- The fixed `models_to_update` list of `main`. -/
def models_to_update : List (List Char) :=
  ["Segment".toList, "EmailTemplate".toList, "SMSCampaign".toList,
   "WhatsAppCampaign".toList, "Workflow".toList, "Task".toList,
   "Journey".toList, "AI_ContentAnalysis".toList, "AI_CustomerSegment".toList,
   "AI_ChatHistory".toList, "LeadPulseVisitor".toList,
   "LeadPulseTouchpoint".toList, "ConversionEvent".toList,
   "ConversionTracking".toList, "ConversionFunnel".toList,
   "PredictionModel".toList, "ChurnPrediction".toList,
   "LifetimeValuePrediction".toList, "ContactJourney".toList]

/-- The in-memory rewrite sequence of `main`: fold the rewrite over the
model names in their fixed order. -/
def runPipeline (content : List Char) : List Char :=
  models_to_update.foldl add_organization_id_to_model content

/-- Occurrence test: does `l` occur as contiguous substring of `s`? -/
def hasInfix (l s : List Char) : Bool :=
  s.tails.any (fun t => l.isPrefixOf t)

/-- No nonempty suffix `v` of `region` lets the literal `L` match at
`v ++ rest`: the scan cannot stop earlier than intended inside `region`. -/
def noStopLit (L region rest : List Char) : Bool :=
  region.tails.all (fun v => v.isEmpty || !(L.isPrefixOf (v ++ rest)))

/-- No nonempty suffix `v` of `region` lets `\s+` followed by the literal `L`
match at `v ++ rest`. -/
def noStopWsLit (L region rest : List Char) : Bool :=
  region.tails.all (fun v => v.isEmpty || !(L.isPrefixOf ((v ++ rest).dropWhile isPySpace)))

/-- A nonempty run of `\s` characters. -/
def wsRun (w : List Char) : Bool :=
  !w.isEmpty && w.all isPySpace

/-- A nonempty `[a-zA-Z_][a-zA-Z0-9_]*` identifier. -/
def idOk : List Char → Bool
  | [] => false
  | c :: t => isIdentStart c && t.all isIdentCont

/-- The first character of `l`, if any, does not satisfy `p`. -/
def headNotP (p : Char → Bool) : List Char → Bool
  | [] => true
  | c :: _ => !(p c)

/-- Fixture for the end-to-end scenario: one `Task` block with the anchor
field, the relations marker, the anchor relation and a list-typed field. -/
def fixtureC5 : List Char :=
  "model Task \x7b\n  id          String   @id\n  title       String\n  createdById String\n\n  // Relations\n  createdBy   User     @relation(fields: [createdById], references: [id])\n  contacts    Contact[]\n\x7d\n".toList

/-- The pipeline output on `fixtureC5`, written as the ordered concatenation:
original fields, the new nullable `organizationId` field, the relations
marker, the new relation declaration (inserted directly after the `createdBy`
token, hence before the pre-existing list-typed `contacts Contact[]` field),
and the trailing index annotation immediately before the closing brace. -/
def expectedC5 : List Char :=
  "model Task \x7b\n  id          String   @id\n  title       String\n  createdById String".toList ++
  ins1 ++ "\n\n  // Relations".toList ++ "\n  createdBy".toList ++ ins2 ++
  "   User     @relation(fields: [createdById], references: [id])".toList ++
  "\n  contacts    Contact".toList ++ brk ++ "\n".toList ++ ins3 ++ cls ++ "\n".toList

/-- Fixture for non-idempotence of the full driver. -/
def docC3 : List Char :=
  "model Workflow \x7b\n  name String\n\x7d".toList

/-- A `Task` block lacking the `// Relations` anchor. -/
def docC2 : List Char :=
  "model Task \x7b\n  id String\n\x7d".toList

/-- The hardcoded schema path of `main`. -/
def schema_path : String :=
  "/Users/supreme/Desktop/marketsage/prisma/schema.prisma"

/-- File operations performed by `main`. -/
inductive FsOp where
  | read (path : String) : FsOp
  | write (path : String) (content : List Char) : FsOp
deriving DecidableEq

def isWrite : FsOp → Bool
  | .read _ => false
  | .write _ _ => true

/-- Disk state: content of each path. -/
def Disk : Type :=
  String → List Char

def applyOp (d : Disk) : FsOp → Disk
  | .read _ => d
  | .write p c => fun q => if q = p then c else d q

def applyOps (d : Disk) (ops : List FsOp) : Disk :=
  ops.foldl applyOp d

/-- The file-operation trace of `main` on disk `d`: one read of the schema
path, then — after all in-memory rewrite passes — one final write of the
fully rewritten content. -/
def mainTrace (d : Disk) : List FsOp :=
  [FsOp.read schema_path, FsOp.write schema_path (runPipeline (d schema_path))]

/-- Which literals does a successful match of `r` necessarily contain? -/
def containsLit : RE → List Char → Bool
  | .lit l, L => hasInfix L l
  | .seq a b, L => containsLit a L || containsLit b L
  | _, _ => false

lemma isPrefixOf_true_iff : ∀ {l s : List Char}, l.isPrefixOf s = true ↔ l <+: s := by
  intro l
  induction l with
  | nil =>
    intro s
    simp [List.isPrefixOf]
  | cons a as ih =>
    intro s
    cases s with
    | nil => simp [List.isPrefixOf]
    | cons b bs =>
      simp [List.isPrefixOf, List.cons_prefix_cons, Bool.and_eq_true, beq_iff_eq, ih]

lemma isPrefixOf_self_append (l t : List Char) : l.isPrefixOf (l ++ t) = true := by
  simp [isPrefixOf_true_iff]

lemma isPrefixOf_eq_false {l s : List Char} (h : ¬ l <+: s) : l.isPrefixOf s = false := by
  cases hb : l.isPrefixOf s with
  | false => rfl
  | true => exact absurd (isPrefixOf_true_iff.mp hb) h

lemma hasInfix_iff {L s : List Char} : hasInfix L s = true ↔ L <:+: s := by
  simp only [hasInfix, List.any_eq_true, List.mem_tails, isPrefixOf_true_iff,
    List.infix_iff_prefix_suffix]
  exact ⟨fun ⟨t, h1, h2⟩ => ⟨t, h2, h1⟩, fun ⟨t, h1, h2⟩ => ⟨t, h2, h1⟩⟩

lemma not_occ_of_hasInfix_false {L s : List Char} (h : hasInfix L s = false) :
    ¬ L <:+: s := by
  intro hc
  rw [← hasInfix_iff] at hc
  simp [h] at hc

lemma mrun_lit_append {α : Type} (l t : List Char) (k : List Char → Option α) :
    mrun (.lit l) (l ++ t) k = k t := by
  simp [mrun, isPrefixOf_self_append, List.drop_left]

lemma mrun_lit_none {α : Type} {l s : List Char} (h : ¬ l <+: s) (k : List Char → Option α) :
    mrun (.lit l) s k = none := by
  simp [mrun, isPrefixOf_eq_false h]

lemma lazyStar_suffix {α : Type} {p : Char → Bool} {k : List Char → Option α} :
    ∀ {s : List Char} {v : α}, lazyStar p s k = some v → ∃ t, t <:+ s ∧ k t = some v := by
  intro s
  induction s with
  | nil =>
    intro v h
    exact ⟨[], List.suffix_refl _, h⟩
  | cons c rest ih =>
    intro v h
    rw [lazyStar] at h
    cases hk : k (c :: rest) with
    | some w =>
      rw [hk] at h
      exact ⟨c :: rest, List.suffix_refl _, by rw [hk, ← h]⟩
    | none =>
      rw [hk] at h
      by_cases hp : p c
      · rw [if_pos hp] at h
        obtain ⟨t, ht, hkt⟩ := ih h
        exact ⟨t, ht.trans (List.suffix_cons c rest), hkt⟩
      · rw [if_neg hp] at h
        exact absurd h (by simp)

lemma gstar_suffix {α : Type} {p : Char → Bool} {k : List Char → Option α} :
    ∀ {s : List Char} {v : α}, gstar p s k = some v → ∃ t, t <:+ s ∧ k t = some v := by
  intro s
  induction s with
  | nil =>
    intro v h
    exact ⟨[], List.suffix_refl _, h⟩
  | cons c rest ih =>
    intro v h
    rw [gstar] at h
    by_cases hp : p c
    · rw [if_pos hp] at h
      cases hg : gstar p rest k with
      | some w =>
        rw [hg] at h
        obtain ⟨t, ht, hkt⟩ := ih (by rw [hg, ← h])
        exact ⟨t, ht.trans (List.suffix_cons c rest), hkt⟩
      | none =>
        rw [hg] at h
        exact ⟨c :: rest, List.suffix_refl _, h⟩
    · rw [if_neg hp] at h
      exact ⟨c :: rest, List.suffix_refl _, h⟩

lemma pplus_suffix {α : Type} {p : Char → Bool} {k : List Char → Option α}
    {s : List Char} {v : α} (h : pplus p s k = some v) : ∃ t, t <:+ s ∧ k t = some v := by
  cases s with
  | nil => exact absurd h (by simp [pplus])
  | cons c rest =>
    rw [pplus] at h
    by_cases hp : p c
    · rw [if_pos hp] at h
      obtain ⟨t, ht, hkt⟩ := gstar_suffix h
      exact ⟨t, ht.trans (List.suffix_cons c rest), hkt⟩
    · rw [if_neg hp] at h
      exact absurd h (by simp)

lemma mrun_suffix {α : Type} :
    ∀ (r : RE) {s : List Char} {k : List Char → Option α} {v : α},
      mrun r s k = some v → ∃ t, t <:+ s ∧ k t = some v := by
  intro r
  induction r with
  | lit l =>
    intro s k v h
    rw [mrun] at h
    by_cases hp : l.isPrefixOf s
    · rw [if_pos hp] at h
      exact ⟨s.drop l.length, List.drop_suffix _ _, h⟩
    · rw [if_neg hp] at h
      exact absurd h (by simp)
  | cls p =>
    intro s k v h
    cases s with
    | nil => exact absurd h (by simp [mrun])
    | cons c rest =>
      rw [mrun] at h
      by_cases hp : p c
      · rw [if_pos hp] at h
        exact ⟨rest, (List.suffix_cons c rest), h⟩
      · rw [if_neg hp] at h
        exact absurd h (by simp)
  | starL p =>
    intro s k v h
    exact lazyStar_suffix h
  | plusG p =>
    intro s k v h
    exact pplus_suffix h
  | starG p =>
    intro s k v h
    exact gstar_suffix h
  | seq a b iha ihb =>
    intro s k v h
    rw [mrun] at h
    obtain ⟨t, ht, hkt⟩ := iha h
    obtain ⟨t2, ht2, hkt2⟩ := ihb hkt
    exact ⟨t2, ht2.trans ht, hkt2⟩

lemma mrun_needs {α : Type} {L : List Char} :
    ∀ (r : RE) {s : List Char} {k : List Char → Option α} {v : α},
      containsLit r L = true → mrun r s k = some v → L <:+: s := by
  intro r
  induction r with
  | lit l =>
    intro s k v hc h
    rw [mrun] at h
    by_cases hp : l.isPrefixOf s
    · rw [containsLit, hasInfix_iff] at hc
      exact hc.trans (isPrefixOf_true_iff.mp hp).isInfix
    · rw [if_neg hp] at h
      exact absurd h (by simp)
  | cls p => intro s k v hc h; exact absurd hc (by simp [containsLit])
  | starL p => intro s k v hc h; exact absurd hc (by simp [containsLit])
  | plusG p => intro s k v hc h; exact absurd hc (by simp [containsLit])
  | starG p => intro s k v hc h; exact absurd hc (by simp [containsLit])
  | seq a b iha ihb =>
    intro s k v hc h
    rw [containsLit, Bool.or_eq_true] at hc
    rw [mrun] at h
    cases hc with
    | inl hca => exact iha hca h
    | inr hcb =>
      obtain ⟨t, ht, hkt⟩ := mrun_suffix a h
      exact (ihb hcb hkt).trans ht.isInfix

lemma matchPat_needs {L : List Char} {r1 r2 : RE} {s : List Char} {pr : List Char × List Char}
    (hc : (containsLit r1 L || containsLit r2 L) = true)
    (hm : matchPat r1 r2 s = some pr) : L <:+: s := by
  rw [Bool.or_eq_true] at hc
  cases hc with
  | inl h1 => exact mrun_needs r1 h1 hm
  | inr h2 =>
    obtain ⟨t, ht, hkt⟩ := mrun_suffix r1 hm
    exact (mrun_needs r2 h2 hkt).trans ht.isInfix

lemma matchPat_eq_none {L : List Char} {r1 r2 : RE} {s : List Char}
    (hc : (containsLit r1 L || containsLit r2 L) = true)
    (h : ¬ L <:+: s) : matchPat r1 r2 s = none := by
  cases hm : matchPat r1 r2 s with
  | none => rfl
  | some pr => exact absurd (matchPat_needs hc hm) h

lemma subAllF_id {r1 r2 : RE} {ins : List Char} :
    ∀ (fuel : Nat) {s : List Char},
      (∀ t, t <:+ s → matchPat r1 r2 t = none) → subAllF r1 r2 ins fuel s = s := by
  intro fuel
  induction fuel with
  | zero => intro s _; rfl
  | succ n ih =>
    intro s h
    rw [subAllF.eq_def]
    simp only [h s (List.suffix_refl s)]
    cases s with
    | nil => rfl
    | cons c rest =>
      show c :: subAllF r1 r2 ins n rest = c :: rest
      rw [ih (fun t ht => h t (ht.trans (List.suffix_cons c rest)))]

lemma subAll_id {r1 r2 : RE} {ins s : List Char}
    (h : ∀ t, t <:+ s → matchPat r1 r2 t = none) : subAll r1 r2 ins s = s :=
  subAllF_id _ h

lemma subAll_id_of_no_occ {L : List Char} {r1 r2 : RE} {ins s : List Char}
    (hc : (containsLit r1 L || containsLit r2 L) = true)
    (h : hasInfix L s = false) : subAll r1 r2 ins s = s := by
  refine subAll_id (fun t ht => matchPat_eq_none hc (fun hocc => ?_))
  exact not_occ_of_hasInfix_false h (hocc.trans ht.isInfix)

lemma containsLit_head (l : List Char) (b : RE) (L : List Char) (h : L <:+: l) :
    containsLit (.seq (.lit l) b) L = true := by
  rw [containsLit, Bool.or_eq_true]
  exact Or.inl (by rw [containsLit]; exact hasInfix_iff.mpr h)

lemma p1_contains_mh (X : List Char) :
    (containsLit (p1r1 X) (mh X) || containsLit p1r2 (mh X)) = true := by
  rw [Bool.or_eq_true]
  exact Or.inl (containsLit_head _ _ _ (List.infix_refl _))

lemma p2_contains_mh (X : List Char) :
    (containsLit (p2r1 X) (mh X) || containsLit p2r2 (mh X)) = true := by
  rw [Bool.or_eq_true]
  exact Or.inl (containsLit_head _ _ _ (List.infix_refl _))

lemma p3_contains_mh (X : List Char) :
    (containsLit (p3r1 X) (mh X) || containsLit p3r2 (mh X)) = true := by
  rw [Bool.or_eq_true]
  exact Or.inl (containsLit_head _ _ _ (List.infix_refl _))

lemma fieldPass_id_of_no_model {X content : List Char}
    (h : hasInfix (mh X) content = false) : fieldPass X content = content :=
  subAll_id_of_no_occ (p1_contains_mh X) h

lemma relationPass_id_of_no_model {X content : List Char}
    (h : hasInfix (mh X) content = false) : relationPass X content = content :=
  subAll_id_of_no_occ (p2_contains_mh X) h

lemma indexPass_id_of_no_model {X content : List Char}
    (h : hasInfix (mh X) content = false) : indexPass X content = content :=
  subAll_id_of_no_occ (p3_contains_mh X) h

/-- C4: for every document and model name such that `model X {` does not occur
anywhere in the document, `add_organization_id_to_model` returns the document
textually identical to its input: all three passes match zero times. -/
theorem C4_no_model_block_is_noop (content X : List Char)
    (h : hasInfix (mh X) content = false) :
    add_organization_id_to_model content X = content := by
  rw [add_organization_id_to_model, fieldPass_id_of_no_model h,
    relationPass_id_of_no_model h, indexPass_id_of_no_model h]

theorem C4_witness :
    hasInfix (mh "Task".toList) "model Contact \x7b\n  id String\n\x7d".toList = false ∧
    add_organization_id_to_model "model Contact \x7b\n  id String\n\x7d".toList "Task".toList
      = "model Contact \x7b\n  id String\n\x7d".toList :=
  ⟨by decide, C4_no_model_block_is_noop _ _ (by decide)⟩

lemma hasInfix_self (L : List Char) : hasInfix L L = true :=
  hasInfix_iff.mpr (List.infix_refl L)

lemma p1_contains_mrk (X : List Char) :
    (containsLit (p1r1 X) mrk || containsLit p1r2 mrk) = true := by
  simp [p1r2, containsLit, hasInfix_self]

lemma p2_contains_mrk (X : List Char) :
    (containsLit (p2r1 X) mrk || containsLit p2r2 mrk) = true := by
  simp [p2r1, containsLit, hasInfix_self]

/-- C2 counterexample: a `Task` block without the `// Relations` anchor is
not left unchanged — the index pass still fires. -/
theorem C2_counterexample :
    add_organization_id_to_model docC2 "Task".toList ≠ docC2 := by
  decide

/-- C2 (amended): on a document without the `// Relations` anchor the field
and relation passes are no-ops, so the rewrite degenerates to the index pass
alone (which still inserts its annotation into any `model X {...}` block). -/
theorem C2_no_marker_only_field_and_relation_passes_noop (content X : List Char)
    (h : hasInfix mrk content = false) :
    fieldPass X content = content ∧ relationPass X content = content ∧
    add_organization_id_to_model content X = indexPass X content := by
  have h1 : fieldPass X content = content := subAll_id_of_no_occ (p1_contains_mrk X) h
  have h2 : relationPass X content = content := subAll_id_of_no_occ (p2_contains_mrk X) h
  exact ⟨h1, h2, by rw [add_organization_id_to_model, h1, h2]⟩

theorem C2_witness :
    hasInfix mrk docC2 = false ∧
    (fieldPass "Task".toList docC2 = docC2 ∧
     relationPass "Task".toList docC2 = docC2 ∧
     add_organization_id_to_model docC2 "Task".toList = indexPass "Task".toList docC2) :=
  ⟨by decide, C2_no_marker_only_field_and_relation_passes_noop docC2 "Task".toList (by decide)⟩

/-- C3: the full driver rewrite is not idempotent — on `docC3` a second run
inserts a second `@@index` annotation, because no pre-existing-field check
guards any pass. -/
theorem C3_not_idempotent :
    runPipeline (runPipeline docC3) ≠ runPipeline docC3 := by
  decide

/-- C5: end-to-end scenario on the minimal fixture — the full pipeline
produces exactly `expectedC5`, whose definition spells out the block content
in order: original fields, new nullable field, relations marker, new relation
declaration before the pre-existing list-typed field, trailing index
annotation immediately before the closing brace. -/
theorem C5_pipeline_on_fixture :
    runPipeline fixtureC5 = expectedC5 := by
  decide

/-- C8: the rewrite pipeline is deterministic — equal input documents yield
byte-for-byte equal outputs, the result depending only on the input text and
the static model-name list. -/
theorem C8_deterministic (c1 c2 : List Char) (h : c1 = c2) :
    runPipeline c1 = runPipeline c2 := by
  rw [h]

theorem C8_witness :
    docC3 = docC3 ∧ runPipeline docC3 = runPipeline docC3 :=
  ⟨rfl, C8_deterministic docC3 docC3 rfl⟩

lemma subAllF_sublist (r1 r2 : RE) (ins : List Char) :
    ∀ (fuel : Nat) (s : List Char), s.Sublist (subAllF r1 r2 ins fuel s) := by
  intro fuel
  induction fuel with
  | zero => intro s; exact List.Sublist.refl s
  | succ n ih =>
    intro s
    cases hm : matchPat r1 r2 s with
    | none =>
      rw [subAllF.eq_def]
      simp only [hm]
      cases s with
      | nil => simp
      | cons c rest => exact (ih rest).cons₂ c
    | some pr =>
      obtain ⟨t1, t2⟩ := pr
      rw [subAllF.eq_def]
      simp only [hm]
      by_cases hz : s.length - t1.length + (t1.length - t2.length) = 0
      · rw [if_pos hz]
        cases s with
        | nil => exact List.nil_sublist ins
        | cons c rest =>
          exact ((ih rest).cons₂ c).trans (List.sublist_append_right ins _)
      · rw [if_neg hz]
        have hdec : s.drop (s.length - t1.length) =
            (s.drop (s.length - t1.length)).take (t1.length - t2.length) ++
              s.drop (s.length - t1.length + (t1.length - t2.length)) := by
          rw [← List.drop_drop, List.take_append_drop]
        have hinner : (s.drop (s.length - t1.length)).Sublist <|
            (s.drop (s.length - t1.length)).take (t1.length - t2.length) ++
              subAllF r1 r2 ins n (s.drop (s.length - t1.length + (t1.length - t2.length))) := by
          nth_rewrite 1 [hdec]
          exact (ih _).append_left _
        simp only [List.append_assoc]
        nth_rewrite 1 [← List.take_append_drop (s.length - t1.length) s]
        refine List.Sublist.append_left ?_ _
        exact hinner.trans (List.sublist_append_right ins _)

lemma subAll_sublist (r1 r2 : RE) (ins s : List Char) : s.Sublist (subAll r1 r2 ins s) :=
  subAllF_sublist r1 r2 ins _ s

/-- C10: the rewrite only inserts text — the input document is a sublist
(order-preserving subsequence) of the output, hence the output is at least
as long as the input. -/
theorem C10_insertion_only (content X : List Char) :
    content.Sublist (add_organization_id_to_model content X) ∧
    content.length ≤ (add_organization_id_to_model content X).length := by
  have h : content.Sublist (add_organization_id_to_model content X) := by
    rw [add_organization_id_to_model]
    exact ((subAll_sublist _ _ _ content).trans (subAll_sublist _ _ _ _)).trans
      (subAll_sublist _ _ _ _)
  exact ⟨h, h.length_le⟩

lemma prefix_of_two {a b : FsOp} {ops : List FsOp} (h : ops <+: [a, b]) :
    ops = [] ∨ ops = [a] ∨ ops = [a, b] := by
  cases ops with
  | nil => exact Or.inl rfl
  | cons x t =>
    rw [List.cons_prefix_cons] at h
    obtain ⟨hx, ht⟩ := h
    cases t with
    | nil => exact Or.inr (Or.inl (by rw [hx]))
    | cons y t2 =>
      rw [List.cons_prefix_cons] at ht
      obtain ⟨hy, ht2⟩ := ht
      rw [List.prefix_nil] at ht2
      exact Or.inr (Or.inr (by rw [hx, hy, ht2]))

/-- C7: `main` writes the file exactly once, as the last file operation,
after all in-memory passes; running any proper prefix of its file-operation
trace (an abort during the read or during the rewrite passes) leaves the
disk unchanged. -/
theorem C7_single_final_write (d : Disk) (ops : List FsOp)
    (hpre : ops <+: mainTrace d) (hne : ops ≠ mainTrace d) :
    applyOps d ops = d ∧ (mainTrace d).countP isWrite = 1 ∧
    (mainTrace d).getLast? = some (FsOp.write schema_path (runPipeline (d schema_path))) := by
  refine ⟨?_, rfl, rfl⟩
  rcases prefix_of_two hpre with h | h | h
  · rw [h]; rfl
  · rw [h]; rfl
  · exact absurd h hne

theorem C7_witness :
    ([FsOp.read schema_path] <+: mainTrace (fun _ => []) ∧
     [FsOp.read schema_path] ≠ mainTrace (fun _ => [])) ∧
    applyOps (fun _ => []) [FsOp.read schema_path] = (fun _ => []) :=
  ⟨⟨by decide, by decide⟩,
   (C7_single_final_write (fun _ => []) [FsOp.read schema_path] (by decide) (by decide)).1⟩

lemma lazyStar_hit {α : Type} {p : Char → Bool} {k : List Char → Option α} {s : List Char}
    {v : α} (h : k s = some v) : lazyStar p s k = some v := by
  cases s with
  | nil => exact h
  | cons c rest => rw [lazyStar, h]

lemma lazyStar_chunk {α : Type} (p : Char → Bool) (u rest : List Char)
    (k : List Char → Option α) (hu : ∀ c ∈ u, p c = true)
    (hk : ∀ v, v ≠ [] → v <:+ u → k (v ++ rest) = none) :
    lazyStar p (u ++ rest) k = lazyStar p rest k := by
  induction u with
  | nil => rfl
  | cons c u' ih =>
    have h0 : k ((c :: u') ++ rest) = none := hk _ (by simp) (List.suffix_refl _)
    rw [List.cons_append] at h0
    rw [List.cons_append, lazyStar, h0, if_pos (hu c (by simp))]
    exact ih (fun a ha => hu a (by simp [ha]))
      (fun v hv hvs => hk v hv (hvs.trans (List.suffix_cons c u')))

lemma gstar_run {α : Type} (p : Char → Bool) (w rest : List Char)
    (k : List Char → Option α) (v : α) (hw : ∀ c ∈ w, p c = true)
    (hstop : headNotP p rest = true) (hk : k rest = some v) :
    gstar p (w ++ rest) k = some v := by
  induction w with
  | nil =>
    cases rest with
    | nil => exact hk
    | cons c t =>
      have hc : p c = false := by
        rw [headNotP] at hstop
        simpa using hstop
      rw [List.nil_append, gstar, if_neg (by simp [hc]), hk]
  | cons c w' ih =>
    rw [List.cons_append, gstar, if_pos (hw c (by simp)), ih (fun a ha => hw a (by simp [ha]))]

lemma pplus_run {α : Type} (p : Char → Bool) (w rest : List Char)
    (k : List Char → Option α) (v : α) (hne : w ≠ []) (hw : ∀ c ∈ w, p c = true)
    (hstop : headNotP p rest = true) (hk : k rest = some v) :
    pplus p (w ++ rest) k = some v := by
  cases w with
  | nil => exact absurd rfl hne
  | cons c w' =>
    rw [List.cons_append, pplus, if_pos (hw c (by simp))]
    exact gstar_run p w' rest k v (fun a ha => hw a (by simp [ha])) hstop hk

lemma gstar_lit_none {α : Type} (p : Char → Bool) (a : Char) (L : List Char)
    (k2 : List Char → Option α) (ha : p a = false) :
    ∀ (s : List Char), ¬ ((a :: L) <+: s.dropWhile p) →
      gstar p s (fun t => mrun (.lit (a :: L)) t k2) = none := by
  intro s
  induction s with
  | nil =>
    intro hnp
    exact mrun_lit_none (by simp) k2
  | cons c t ih =>
    intro hnp
    rw [gstar]
    by_cases hp : p c
    · rw [if_pos hp]
      have hdw : (c :: t).dropWhile p = t.dropWhile p := by
        rw [List.dropWhile_cons, if_pos hp]
      rw [hdw] at hnp
      rw [ih hnp]
      apply mrun_lit_none
      intro hpre
      rw [List.cons_prefix_cons] at hpre
      rw [← hpre.1, ha] at hp
      exact Bool.false_ne_true hp
    · rw [if_neg hp]
      apply mrun_lit_none
      intro hpre
      apply hnp
      rwa [List.dropWhile_cons, if_neg hp]

lemma pplus_lit_none {α : Type} (p : Char → Bool) (a : Char) (L : List Char)
    (k2 : List Char → Option α) (s : List Char) (ha : p a = false)
    (hnp : ¬ ((a :: L) <+: s.dropWhile p)) :
    pplus p s (fun t => mrun (.lit (a :: L)) t k2) = none := by
  cases s with
  | nil => rfl
  | cons c t =>
    rw [pplus]
    by_cases hp : p c
    · rw [if_pos hp]
      have hdw : (c :: t).dropWhile p = t.dropWhile p := by
        rw [List.dropWhile_cons, if_pos hp]
      rw [hdw] at hnp
      exact gstar_lit_none p a L k2 ha t hnp
    · rw [if_neg hp]

lemma matchPat_head_none {l s : List Char} {b r2 : RE} (h : ¬ l <+: s) :
    matchPat (.seq (.lit l) b) r2 s = none := by
  rw [matchPat, mrun]
  exact mrun_lit_none h _

lemma subAllF_scan {r1 r2 : RE} {ins : List Char} (pre s : List Char) (fuel : Nat)
    (hk : ∀ v, v ≠ [] → v <:+ pre → matchPat r1 r2 (v ++ s) = none) :
    subAllF r1 r2 ins (pre.length + fuel) (pre ++ s) = pre ++ subAllF r1 r2 ins fuel s := by
  induction pre with
  | nil => simp
  | cons c pre' ih =>
    have h0 : matchPat r1 r2 (c :: (pre' ++ s)) = none := by
      rw [← List.cons_append]
      exact hk _ (by simp) (List.suffix_refl _)
    have hlen : (c :: pre').length + fuel = (pre'.length + fuel) + 1 := by
      simp only [List.length_cons]
      omega
    rw [hlen, List.cons_append, subAllF.eq_def]
    simp only [h0]
    rw [ih (fun v hv hvs => hk v hv (hvs.trans (List.suffix_cons c pre')))]
    rw [List.cons_append]

lemma subAllF_step {r1 r2 : RE} {ins : List Char} (A B C : List Char) (fuel : Nat)
    (hm : matchPat r1 r2 (A ++ (B ++ C)) = some (B ++ C, C)) (hB : B ≠ []) :
    subAllF r1 r2 ins (fuel + 1) (A ++ (B ++ C)) =
      A ++ (ins ++ (B ++ subAllF r1 r2 ins fuel C)) := by
  rw [subAllF.eq_def]
  simp only [hm]
  have h1 : (A ++ (B ++ C)).length - (B ++ C).length = A.length := by
    simp only [List.length_append]
    omega
  have h2 : (B ++ C).length - C.length = B.length := by
    simp only [List.length_append]
    omega
  rw [h1, h2]
  have hz : ¬ (A.length + B.length = 0) := by
    intro h
    exact hB (List.length_eq_zero.mp (by omega))
  rw [if_neg hz, List.take_left, List.drop_left, List.take_left]
  have h3 : (A ++ (B ++ C)).drop (A.length + B.length) = C := by
    rw [← List.length_append A B, ← List.append_assoc, List.drop_left]
  rw [h3]
  simp [List.append_assoc]

lemma noStopLit_spec {L region rest : List Char} (h : noStopLit L region rest = true) :
    ∀ v, v ≠ [] → v <:+ region → ¬ (L <+: v ++ rest) := by
  intro v hv hs hp
  rw [noStopLit, List.all_eq_true] at h
  have hx := h v ((List.mem_tails v region).mpr hs)
  rw [Bool.or_eq_true] at hx
  rcases hx with he | hnp
  · exact hv (List.isEmpty_iff.mp he)
  · have hgood := isPrefixOf_true_iff.mpr hp
    simp [hgood] at hnp

lemma noStopWsLit_spec {L region rest : List Char} (h : noStopWsLit L region rest = true) :
    ∀ v, v ≠ [] → v <:+ region → ¬ (L <+: (v ++ rest).dropWhile isPySpace) := by
  intro v hv hs hp
  rw [noStopWsLit, List.all_eq_true] at h
  have hx := h v ((List.mem_tails v region).mpr hs)
  rw [Bool.or_eq_true] at hx
  rcases hx with he | hnp
  · exact hv (List.isEmpty_iff.mp he)
  · have hgood := isPrefixOf_true_iff.mpr hp
    simp [hgood] at hnp

lemma wsRun_ne {w : List Char} (h : wsRun w = true) : w ≠ [] := by
  rw [wsRun, Bool.and_eq_true] at h
  intro he
  rw [he] at h
  simp at h

lemma wsRun_all {w : List Char} (h : wsRun w = true) : ∀ c ∈ w, isPySpace c = true := by
  rw [wsRun, Bool.and_eq_true, List.all_eq_true] at h
  exact h.2

lemma hasInfix_false_suffix {L s : List Char} (h : hasInfix L s = false) :
    ∀ t, t <:+ s → ¬ (L <+: t) := by
  intro t ht hp
  exact not_occ_of_hasInfix_false h (hp.isInfix.trans ht.isInfix)

lemma mrun_seq {α : Type} (a b : RE) (s : List Char) (k : List Char → Option α) :
    mrun (.seq a b) s k = mrun a s (fun t => mrun b t k) := rfl

lemma mrun_starL {α : Type} (p : Char → Bool) (s : List Char) (k : List Char → Option α) :
    mrun (.starL p) s k = lazyStar p s k := rfl

lemma mrun_plusG {α : Type} (p : Char → Bool) (s : List Char) (k : List Char → Option α) :
    mrun (.plusG p) s k = pplus p s k := rfl

lemma mrun_starG {α : Type} (p : Char → Bool) (s : List Char) (k : List Char → Option α) :
    mrun (.starG p) s k = gstar p s k := rfl

lemma pySpace_nonBrace {c : Char} (h : isPySpace c = true) : nonBrace c = true := by
  rw [isPySpace] at h
  rw [nonBrace]
  simp only [Bool.or_eq_true, beq_iff_eq, Bool.and_eq_true, decide_eq_true_eq] at h
  simp only [bne_iff_ne, ne_eq, decide_eq_true_eq]
  omega

lemma identStart_nonBrace {c : Char} (h : isIdentStart c = true) : nonBrace c = true := by
  rw [isIdentStart] at h
  rw [nonBrace]
  simp only [Bool.or_eq_true, beq_iff_eq, Bool.and_eq_true, decide_eq_true_eq] at h
  simp only [bne_iff_ne, ne_eq, decide_eq_true_eq]
  omega

lemma identCont_nonBrace {c : Char} (h : isIdentCont c = true) : nonBrace c = true := by
  rw [isIdentCont] at h
  rw [Bool.or_eq_true] at h
  rcases h with h | h
  · exact identStart_nonBrace h
  · rw [nonBrace]
    simp only [Bool.and_eq_true, decide_eq_true_eq] at h
    simp only [bne_iff_ne, ne_eq, decide_eq_true_eq]
    omega

lemma identStart_not_pySpace {c : Char} (h : isIdentStart c = true) : isPySpace c = false := by
  cases hsp : isPySpace c with
  | false => rfl
  | true =>
    exfalso
    rw [isIdentStart] at h
    rw [isPySpace] at hsp
    simp only [Bool.or_eq_true, beq_iff_eq, Bool.and_eq_true, decide_eq_true_eq] at h hsp
    omega

lemma pySpace_not_identCont {c : Char} (h : isPySpace c = true) : isIdentCont c = false := by
  cases hic : isIdentCont c with
  | false => rfl
  | true =>
    exfalso
    rw [isIdentCont, isIdentStart] at hic
    rw [isPySpace] at h
    simp only [Bool.or_eq_true, beq_iff_eq, Bool.and_eq_true, decide_eq_true_eq] at h hic
    omega

lemma all_nonBrace_append {a b : List Char} (ha : ∀ c ∈ a, nonBrace c = true)
    (hb : ∀ c ∈ b, nonBrace c = true) : ∀ c ∈ a ++ b, nonBrace c = true := by
  intro c hc
  rcases List.mem_append.mp hc with h | h
  · exact ha c h
  · exact hb c h

lemma p3_match (X B tail : List Char) (hB : ∀ c ∈ B, nonBrace c = true) :
    matchPat (p3r1 X) p3r2 ((mh X ++ B) ++ (cls ++ tail)) = some (cls ++ tail, tail) := by
  rw [matchPat, p3r1, mrun_seq, List.append_assoc, mrun_lit_append, mrun_starL]
  have hk : ∀ v, v ≠ [] → v <:+ B →
      mrun p3r2 (v ++ (cls ++ tail)) (fun t2 => some (v ++ (cls ++ tail), t2)) = none := by
    intro v hv hvs
    rw [p3r2]
    apply mrun_lit_none
    intro hpre
    cases v with
    | nil => exact hv rfl
    | cons c v' =>
      rw [List.cons_append, show cls = ['\x7d'] from rfl, List.cons_prefix_cons] at hpre
      exact absurd (hB c (hvs.subset (List.mem_cons_self c v'))) (by rw [← hpre.1]; decide)
  rw [lazyStar_chunk nonBrace B (cls ++ tail) _ hB hk]
  apply lazyStar_hit
  rw [p3r2, mrun_lit_append]

lemma indexPass_det (X pre B tail : List Char)
    (hpre : ∀ v, v ≠ [] → v <:+ pre → ¬ (mh X <+: v ++ (mh X ++ (B ++ (cls ++ tail)))))
    (hB : ∀ c ∈ B, nonBrace c = true)
    (htail : ∀ t, t <:+ tail → ¬ (mh X <+: t)) :
    indexPass X (pre ++ (mh X ++ (B ++ (cls ++ tail)))) =
      pre ++ (mh X ++ (B ++ (ins3 ++ (cls ++ tail)))) := by
  rw [indexPass, subAll]
  have hfuel : (pre ++ (mh X ++ (B ++ (cls ++ tail)))).length + 1
      = pre.length + ((mh X ++ (B ++ (cls ++ tail))).length + 1) := by
    simp only [List.length_append]
    omega
  have hscan : ∀ v, v ≠ [] → v <:+ pre →
      matchPat (p3r1 X) p3r2 (v ++ (mh X ++ (B ++ (cls ++ tail)))) = none :=
    fun v hv hs => matchPat_head_none (hpre v hv hs)
  have hid : ∀ t, t <:+ tail → matchPat (p3r1 X) p3r2 t = none :=
    fun t ht => matchPat_head_none (htail t ht)
  rw [hfuel, subAllF_scan pre _ _ hscan]
  congr 1
  rw [show mh X ++ (B ++ (cls ++ tail)) = (mh X ++ B) ++ (cls ++ tail) by
    simp [List.append_assoc]]
  rw [subAllF_step (mh X ++ B) cls tail _ (p3_match X B tail hB) (by decide)]
  rw [subAllF_id _ hid]
  simp [List.append_assoc]

/-- C9: the index-injection pass needs no anchor beyond the block markers —
on a document whose `model X {` block has a brace-free body and no anchors
(so that the field and relation passes are no-ops, taken as hypotheses),
`add_organization_id_to_model` still inserts the `@@index` annotation
immediately before the block's closing brace. -/
theorem C9_index_needs_no_anchor (X pre B tail : List Char)
    (h1 : fieldPass X (pre ++ (mh X ++ (B ++ (cls ++ tail)))) =
      pre ++ (mh X ++ (B ++ (cls ++ tail))))
    (h2 : relationPass X (pre ++ (mh X ++ (B ++ (cls ++ tail)))) =
      pre ++ (mh X ++ (B ++ (cls ++ tail))))
    (hpre : noStopLit (mh X) pre (mh X ++ (B ++ (cls ++ tail))) = true)
    (hB : B.all nonBrace = true)
    (htail : hasInfix (mh X) tail = false) :
    add_organization_id_to_model (pre ++ (mh X ++ (B ++ (cls ++ tail)))) X =
      pre ++ (mh X ++ (B ++ (ins3 ++ (cls ++ tail)))) := by
  rw [add_organization_id_to_model, h1, h2]
  exact indexPass_det X pre B tail (noStopLit_spec hpre) (List.all_eq_true.mp hB)
    (hasInfix_false_suffix htail)

theorem C9_witness :
    (fieldPass "Task".toList ("x ".toList ++ (mh "Task".toList ++ ("\n  id Int\n".toList ++ (cls ++ "\n".toList)))) =
      "x ".toList ++ (mh "Task".toList ++ ("\n  id Int\n".toList ++ (cls ++ "\n".toList))) ∧
     noStopLit (mh "Task".toList) "x ".toList
       (mh "Task".toList ++ ("\n  id Int\n".toList ++ (cls ++ "\n".toList))) = true) ∧
    add_organization_id_to_model
        ("x ".toList ++ (mh "Task".toList ++ ("\n  id Int\n".toList ++ (cls ++ "\n".toList))))
        "Task".toList =
      "x ".toList ++ (mh "Task".toList ++ ("\n  id Int\n".toList ++ (ins3 ++ (cls ++ "\n".toList)))) :=
  ⟨⟨by decide, by decide⟩,
   C9_index_needs_no_anchor "Task".toList "x ".toList "\n  id Int\n".toList "\n".toList
     (by decide) (by decide) (by decide) (by decide) (by decide)⟩

lemma headNotP_cons (p : Char → Bool) (c : Char) (t : List Char) :
    headNotP p (c :: t) = !(p c) := rfl

lemma p1_match (X b1 w1 b2 w2 tail : List Char)
    (hb1 : ∀ c ∈ b1, nonBrace c = true)
    (hb1k : ∀ v, v ≠ [] → v <:+ b1 →
      ¬ (cid <+: v ++ (cid ++ (w1 ++ (strLit ++ (b2 ++ ((w2 ++ mrk) ++ tail)))))))
    (hw1ne : w1 ≠ []) (hw1 : ∀ c ∈ w1, isPySpace c = true)
    (hb2 : ∀ c ∈ b2, nonBrace c = true)
    (hb2k : ∀ v, v ≠ [] → v <:+ b2 →
      ¬ (mrk <+: (v ++ ((w2 ++ mrk) ++ tail)).dropWhile isPySpace))
    (hw2ne : w2 ≠ []) (hw2 : ∀ c ∈ w2, isPySpace c = true) :
    matchPat (p1r1 X) p1r2
        ((mh X ++ (b1 ++ (cid ++ (w1 ++ (strLit ++ b2))))) ++ ((w2 ++ mrk) ++ tail)) =
      some ((w2 ++ mrk) ++ tail, tail) := by
  rw [show (mh X ++ (b1 ++ (cid ++ (w1 ++ (strLit ++ b2))))) ++ ((w2 ++ mrk) ++ tail) =
      mh X ++ (b1 ++ (cid ++ (w1 ++ (strLit ++ (b2 ++ ((w2 ++ mrk) ++ tail)))))) by
    simp [List.append_assoc]]
  rw [matchPat, p1r1, mrun_seq, mrun_lit_append, mrun_seq, mrun_starL]
  have hkb : ∀ v, v ≠ [] → v <:+ b1 →
      mrun (.seq (.lit cid) (.seq (.plusG isPySpace) (.seq (.lit strLit) (.starL nonBrace))))
        (v ++ (cid ++ (w1 ++ (strLit ++ (b2 ++ ((w2 ++ mrk) ++ tail))))))
        (fun t1 => mrun p1r2 t1 (fun t2 =>
          some (t1, t2))) = none := by
    intro v hv hs
    rw [mrun_seq]
    exact mrun_lit_none (hb1k v hv hs) _
  rw [lazyStar_chunk nonBrace b1 _ _ hb1 hkb]
  apply lazyStar_hit
  rw [mrun_seq, mrun_lit_append, mrun_seq, mrun_plusG]
  refine pplus_run isPySpace w1 _ _ _ hw1ne hw1 rfl ?_
  rw [mrun_seq, mrun_lit_append, mrun_starL]
  have hkK : ∀ v, v ≠ [] → v <:+ b2 →
      mrun p1r2 (v ++ ((w2 ++ mrk) ++ tail)) (fun t2 =>
        some (v ++ ((w2 ++ mrk) ++ tail), t2)) = none := by
    intro v hv hs
    rw [p1r2, mrun_seq, mrun_plusG]
    exact pplus_lit_none isPySpace '/' "/ Relations".toList _ _ (by decide) (hb2k v hv hs)
  rw [lazyStar_chunk nonBrace b2 _ _ hb2 hkK]
  apply lazyStar_hit
  rw [p1r2, mrun_seq, mrun_plusG, List.append_assoc]
  refine pplus_run isPySpace w2 _ _ _ hw2ne hw2 rfl ?_
  rw [mrun_lit_append]

lemma fieldPass_det (X pre b1 w1 b2 w2 tail : List Char)
    (hpre : ∀ v, v ≠ [] → v <:+ pre →
      ¬ (mh X <+: v ++ (mh X ++ (b1 ++ (cid ++ (w1 ++ (strLit ++ (b2 ++ ((w2 ++ mrk) ++ tail)))))))))
    (hb1 : ∀ c ∈ b1, nonBrace c = true)
    (hb1k : ∀ v, v ≠ [] → v <:+ b1 →
      ¬ (cid <+: v ++ (cid ++ (w1 ++ (strLit ++ (b2 ++ ((w2 ++ mrk) ++ tail)))))))
    (hw1ne : w1 ≠ []) (hw1 : ∀ c ∈ w1, isPySpace c = true)
    (hb2 : ∀ c ∈ b2, nonBrace c = true)
    (hb2k : ∀ v, v ≠ [] → v <:+ b2 →
      ¬ (mrk <+: (v ++ ((w2 ++ mrk) ++ tail)).dropWhile isPySpace))
    (hw2ne : w2 ≠ []) (hw2 : ∀ c ∈ w2, isPySpace c = true)
    (htail : ∀ t, t <:+ tail → ¬ (mh X <+: t)) :
    fieldPass X (pre ++ (mh X ++ (b1 ++ (cid ++ (w1 ++ (strLit ++ (b2 ++ ((w2 ++ mrk) ++ tail)))))))) =
      pre ++ (mh X ++ (b1 ++ (cid ++ (w1 ++ (strLit ++ (b2 ++ (ins1 ++ ((w2 ++ mrk) ++ tail)))))))) := by
  rw [fieldPass, subAll]
  have hscan : ∀ v, v ≠ [] → v <:+ pre →
      matchPat (p1r1 X) p1r2
        (v ++ (mh X ++ (b1 ++ (cid ++ (w1 ++ (strLit ++ (b2 ++ ((w2 ++ mrk) ++ tail)))))))) = none :=
    fun v hv hs => matchPat_head_none (hpre v hv hs)
  have hid : ∀ t, t <:+ tail → matchPat (p1r1 X) p1r2 t = none :=
    fun t ht => matchPat_head_none (htail t ht)
  have hfuel : (pre ++ (mh X ++ (b1 ++ (cid ++ (w1 ++ (strLit ++ (b2 ++ ((w2 ++ mrk) ++ tail)))))))).length + 1
      = pre.length + ((mh X ++ (b1 ++ (cid ++ (w1 ++ (strLit ++ (b2 ++ ((w2 ++ mrk) ++ tail))))))).length + 1) := by
    simp only [List.length_append]
    omega
  rw [hfuel, subAllF_scan pre _ _ hscan]
  congr 1
  rw [show mh X ++ (b1 ++ (cid ++ (w1 ++ (strLit ++ (b2 ++ ((w2 ++ mrk) ++ tail)))))) =
      (mh X ++ (b1 ++ (cid ++ (w1 ++ (strLit ++ b2))))) ++ ((w2 ++ mrk) ++ tail) by
    simp [List.append_assoc]]
  rw [subAllF_step (mh X ++ (b1 ++ (cid ++ (w1 ++ (strLit ++ b2))))) (w2 ++ mrk) tail _
    (p1_match X b1 w1 b2 w2 tail hb1 hb1k hw1ne hw1 hb2 hb2k hw2ne hw2)
    (by intro h; exact hw2ne (List.append_eq_nil.mp h).1)]
  rw [subAllF_id _ hid]
  simp [List.append_assoc]

/-- C6: on a document whose `model X {` block contains the `createdById`
anchor (first occurrence), whitespace, `String`, and a later `// Relations`
marker (first following occurrence, preceded by whitespace), the
field-injection pass inserts the new nullable `organizationId` field line
exactly between the text after `String` and the whitespace preceding the
marker — immediately before the marker line — leaving all other text
unchanged. -/
theorem C6_field_pass_inserts_before_marker (X pre b1 w1 b2 w2 tail : List Char)
    (hpre : noStopLit (mh X) pre
      (mh X ++ (b1 ++ (cid ++ (w1 ++ (strLit ++ (b2 ++ ((w2 ++ mrk) ++ tail))))))) = true)
    (hb1 : b1.all nonBrace = true)
    (hb1k : noStopLit cid b1 (cid ++ (w1 ++ (strLit ++ (b2 ++ ((w2 ++ mrk) ++ tail))))) = true)
    (hw1 : wsRun w1 = true)
    (hb2 : b2.all nonBrace = true)
    (hb2k : noStopWsLit mrk b2 ((w2 ++ mrk) ++ tail) = true)
    (hw2 : wsRun w2 = true)
    (htail : hasInfix (mh X) tail = false) :
    fieldPass X (pre ++ (mh X ++ (b1 ++ (cid ++ (w1 ++ (strLit ++ (b2 ++ ((w2 ++ mrk) ++ tail)))))))) =
      pre ++ (mh X ++ (b1 ++ (cid ++ (w1 ++ (strLit ++ (b2 ++ (ins1 ++ ((w2 ++ mrk) ++ tail)))))))) :=
  fieldPass_det X pre b1 w1 b2 w2 tail (noStopLit_spec hpre) (List.all_eq_true.mp hb1)
    (noStopLit_spec hb1k) (wsRun_ne hw1) (wsRun_all hw1) (List.all_eq_true.mp hb2)
    (noStopWsLit_spec hb2k) (wsRun_ne hw2) (wsRun_all hw2) (hasInfix_false_suffix htail)

theorem C6_witness :
    (wsRun " ".toList = true ∧ wsRun "\n  ".toList = true ∧
     noStopLit cid "\n  ".toList
       (cid ++ (" ".toList ++ (strLit ++ ([] ++ (("\n  ".toList ++ mrk) ++ "\n\x7d".toList))))) = true) ∧
    fieldPass "Task".toList
        ([] ++ (mh "Task".toList ++ ("\n  ".toList ++ (cid ++ (" ".toList ++ (strLit ++
          ([] ++ (("\n  ".toList ++ mrk) ++ "\n\x7d".toList)))))))) =
      [] ++ (mh "Task".toList ++ ("\n  ".toList ++ (cid ++ (" ".toList ++ (strLit ++
        ([] ++ (ins1 ++ (("\n  ".toList ++ mrk) ++ "\n\x7d".toList)))))))) :=
  ⟨⟨by decide, by decide, by decide⟩,
   C6_field_pass_inserts_before_marker "Task".toList [] "\n  ".toList " ".toList []
     "\n  ".toList "\n\x7d".toList (by decide) (by decide) (by decide) (by decide)
     (by decide) (by decide) (by decide) (by decide)⟩

lemma mrun_cls_cons {α : Type} (p : Char → Bool) (c : Char) (t : List Char)
    (k : List Char → Option α) :
    mrun (.cls p) (c :: t) k = if p c then k t else none := rfl

lemma headNot_idCont_of_ws {w r : List Char} (hne : w ≠ [])
    (hw : ∀ c ∈ w, isPySpace c = true) : headNotP isIdentCont (w ++ r) = true := by
  cases w with
  | nil => exact absurd rfl hne
  | cons c t =>
    rw [List.cons_append, headNotP_cons, pySpace_not_identCont (hw c (by simp))]
    rfl

lemma headNot_ws_append_brk {u r : List Char} (h : headNotP isPySpace u = true) :
    headNotP isPySpace (u ++ (brk ++ r)) = true := by
  cases u with
  | nil => rfl
  | cons c t =>
    rw [List.cons_append, headNotP_cons]
    exact h
lemma p2_match (X z b3 w3 id4t w4 u tail : List Char) (i0 : Char)
    (hz : ∀ c ∈ z, nonBrace c = true)
    (hzk : ∀ v, v ≠ [] → v <:+ z →
      ¬ (mrk <+: v ++ (mrk ++ (b3 ++ (cby ++ (w3 ++ ((i0 :: id4t) ++ (w4 ++ (u ++ (brk ++ tail))))))))))
    (hb3 : ∀ c ∈ b3, nonBrace c = true)
    (hb3k : ∀ v, v ≠ [] → v <:+ b3 →
      ¬ (cby <+: v ++ (cby ++ (w3 ++ ((i0 :: id4t) ++ (w4 ++ (u ++ (brk ++ tail))))))))
    (hw3ne : w3 ≠ []) (hw3 : ∀ c ∈ w3, isPySpace c = true)
    (hi0 : isIdentStart i0 = true)
    (hid4t : ∀ c ∈ id4t, isIdentCont c = true)
    (hw4ne : w4 ≠ []) (hw4 : ∀ c ∈ w4, isPySpace c = true)
    (huh : headNotP isPySpace u = true)
    (hu : ∀ c ∈ u, nonBrace c = true)
    (huk : ∀ v, v ≠ [] → v <:+ u → ¬ (brk <+: v ++ (brk ++ tail))) :
    matchPat (p2r1 X) p2r2
        ((mh X ++ (z ++ (mrk ++ (b3 ++ cby)))) ++
          ((w3 ++ ((i0 :: id4t) ++ (w4 ++ (u ++ brk)))) ++ tail)) =
      some ((w3 ++ ((i0 :: id4t) ++ (w4 ++ (u ++ brk)))) ++ tail, tail) := by
  rw [show (mh X ++ (z ++ (mrk ++ (b3 ++ cby)))) ++
        ((w3 ++ ((i0 :: id4t) ++ (w4 ++ (u ++ brk)))) ++ tail) =
      mh X ++ (z ++ (mrk ++ (b3 ++ (cby ++ (w3 ++ ((i0 :: id4t) ++ (w4 ++ (u ++ (brk ++ tail))))))))) by
    simp [List.append_assoc]]
  rw [matchPat, p2r1, mrun_seq, mrun_lit_append, mrun_seq, mrun_starL]
  have hkz : ∀ v, v ≠ [] → v <:+ z →
      mrun (.seq (.lit mrk) (.seq (.starL nonBrace) (.seq (.lit cby) (.starL nonBrace))))
        (v ++ (mrk ++ (b3 ++ (cby ++ (w3 ++ ((i0 :: id4t) ++ (w4 ++ (u ++ (brk ++ tail)))))))))
        (fun t1 => mrun p2r2 t1 (fun t2 => some (t1, t2))) = none := by
    intro v hv hs
    rw [mrun_seq]
    exact mrun_lit_none (hzk v hv hs) _
  rw [lazyStar_chunk nonBrace z _ _ hz hkz]
  apply lazyStar_hit
  rw [mrun_seq, mrun_lit_append, mrun_seq, mrun_starL]
  have hkb3 : ∀ v, v ≠ [] → v <:+ b3 →
      mrun (.seq (.lit cby) (.starL nonBrace))
        (v ++ (cby ++ (w3 ++ ((i0 :: id4t) ++ (w4 ++ (u ++ (brk ++ tail)))))))
        (fun t1 => mrun p2r2 t1 (fun t2 => some (t1, t2))) = none := by
    intro v hv hs
    rw [mrun_seq]
    exact mrun_lit_none (hb3k v hv hs) _
  rw [lazyStar_chunk nonBrace b3 _ _ hb3 hkb3]
  apply lazyStar_hit
  rw [mrun_seq, mrun_lit_append, mrun_starL]
  apply lazyStar_hit
  rw [p2r2, mrun_seq, mrun_plusG]
  refine pplus_run isPySpace w3 _ _ _ hw3ne hw3
    (by rw [List.cons_append, headNotP_cons, identStart_not_pySpace hi0]; rfl) ?_
  rw [List.cons_append, mrun_seq, mrun_cls_cons, if_pos hi0, mrun_seq, mrun_starG]
  refine gstar_run isIdentCont id4t _ _ _ hid4t (headNot_idCont_of_ws hw4ne hw4) ?_
  rw [mrun_seq, mrun_plusG]
  refine pplus_run isPySpace w4 _ _ _ hw4ne hw4 (headNot_ws_append_brk huh) ?_
  rw [mrun_seq, mrun_starL]
  have hku : ∀ v, v ≠ [] → v <:+ u →
      mrun (.lit brk) (v ++ (brk ++ tail))
        (fun t2 => some (w3 ++ ((i0 :: id4t) ++ (w4 ++ (u ++ (brk ++ tail)))), t2)) = none := by
    intro v hv hs
    exact mrun_lit_none (huk v hv hs) _
  rw [lazyStar_chunk nonBrace u _ _ hu hku]
  apply lazyStar_hit
  rw [mrun_lit_append]
  simp [List.append_assoc]

lemma relationPass_det (X pre z b3 w3 id4t w4 u tail : List Char) (i0 : Char)
    (hpre : ∀ v, v ≠ [] → v <:+ pre →
      ¬ (mh X <+: v ++ (mh X ++ (z ++ (mrk ++ (b3 ++ (cby ++ (w3 ++ ((i0 :: id4t) ++ (w4 ++ (u ++ (brk ++ tail))))))))))))
    (hz : ∀ c ∈ z, nonBrace c = true)
    (hzk : ∀ v, v ≠ [] → v <:+ z →
      ¬ (mrk <+: v ++ (mrk ++ (b3 ++ (cby ++ (w3 ++ ((i0 :: id4t) ++ (w4 ++ (u ++ (brk ++ tail))))))))))
    (hb3 : ∀ c ∈ b3, nonBrace c = true)
    (hb3k : ∀ v, v ≠ [] → v <:+ b3 →
      ¬ (cby <+: v ++ (cby ++ (w3 ++ ((i0 :: id4t) ++ (w4 ++ (u ++ (brk ++ tail))))))))
    (hw3ne : w3 ≠ []) (hw3 : ∀ c ∈ w3, isPySpace c = true)
    (hi0 : isIdentStart i0 = true)
    (hid4t : ∀ c ∈ id4t, isIdentCont c = true)
    (hw4ne : w4 ≠ []) (hw4 : ∀ c ∈ w4, isPySpace c = true)
    (huh : headNotP isPySpace u = true)
    (hu : ∀ c ∈ u, nonBrace c = true)
    (huk : ∀ v, v ≠ [] → v <:+ u → ¬ (brk <+: v ++ (brk ++ tail)))
    (htail : ∀ t, t <:+ tail → ¬ (mh X <+: t)) :
    relationPass X (pre ++ (mh X ++ (z ++ (mrk ++ (b3 ++ (cby ++ (w3 ++ ((i0 :: id4t) ++ (w4 ++ (u ++ (brk ++ tail))))))))))) =
      pre ++ (mh X ++ (z ++ (mrk ++ (b3 ++ (cby ++ (ins2 ++ (w3 ++ ((i0 :: id4t) ++ (w4 ++ (u ++ (brk ++ tail))))))))))) := by
  rw [relationPass, subAll]
  have hscan : ∀ v, v ≠ [] → v <:+ pre →
      matchPat (p2r1 X) p2r2
        (v ++ (mh X ++ (z ++ (mrk ++ (b3 ++ (cby ++ (w3 ++ ((i0 :: id4t) ++ (w4 ++ (u ++ (brk ++ tail))))))))))) = none :=
    fun v hv hs => matchPat_head_none (hpre v hv hs)
  have hid : ∀ t, t <:+ tail → matchPat (p2r1 X) p2r2 t = none :=
    fun t ht => matchPat_head_none (htail t ht)
  have hfuel : (pre ++ (mh X ++ (z ++ (mrk ++ (b3 ++ (cby ++ (w3 ++ ((i0 :: id4t) ++ (w4 ++ (u ++ (brk ++ tail))))))))))).length + 1
      = pre.length + ((mh X ++ (z ++ (mrk ++ (b3 ++ (cby ++ (w3 ++ ((i0 :: id4t) ++ (w4 ++ (u ++ (brk ++ tail)))))))))).length + 1) := by
    simp only [List.length_append]
    omega
  rw [hfuel, subAllF_scan pre _ _ hscan]
  congr 1
  rw [show mh X ++ (z ++ (mrk ++ (b3 ++ (cby ++ (w3 ++ ((i0 :: id4t) ++ (w4 ++ (u ++ (brk ++ tail))))))))) =
      (mh X ++ (z ++ (mrk ++ (b3 ++ cby)))) ++ ((w3 ++ ((i0 :: id4t) ++ (w4 ++ (u ++ brk)))) ++ tail) by
    simp [List.append_assoc]]
  rw [subAllF_step (mh X ++ (z ++ (mrk ++ (b3 ++ cby)))) (w3 ++ ((i0 :: id4t) ++ (w4 ++ (u ++ brk)))) tail _
    (p2_match X z b3 w3 id4t w4 u tail i0 hz hzk hb3 hb3k hw3ne hw3 hi0 hid4t hw4ne hw4 huh hu huk)
    (by intro h; exact hw3ne (List.append_eq_nil.mp h).1)]
  rw [subAllF_id _ hid]
  simp [List.append_assoc]

lemma ws_all_nonBrace {w : List Char} (hw : ∀ c ∈ w, isPySpace c = true) :
    ∀ c ∈ w, nonBrace c = true :=
  fun c hc => pySpace_nonBrace (hw c hc)

lemma cid_nonBrace : ∀ c ∈ cid, nonBrace c = true := by decide

lemma strLit_nonBrace : ∀ c ∈ strLit, nonBrace c = true := by decide

lemma mrk_nonBrace : ∀ c ∈ mrk, nonBrace c = true := by decide

lemma cby_nonBrace : ∀ c ∈ cby, nonBrace c = true := by decide

lemma brk_nonBrace : ∀ c ∈ brk, nonBrace c = true := by decide

lemma ins1_nonBrace : ∀ c ∈ ins1, nonBrace c = true := by decide

lemma ins2_nonBrace : ∀ c ∈ ins2, nonBrace c = true := by decide

/-- C1: on a document containing exactly one well-formed `model X {` block
whose body holds the `createdById … String` anchor (at its first occurrence),
a later `// Relations` marker (first such stop), a `createdBy` anchor
relation, and a following list-typed field ending in `[]`, one application of
`add_organization_id_to_model` yields exactly one new `organizationId` field
line (before the marker), exactly one new `organization` relation line
(directly after the `createdBy` token), and exactly one new `@@index`
annotation (before the closing brace), each inserted exactly once, with all
other text of the document unchanged — the conclusion exhibits the output as
the input with precisely the three insertions `ins1`, `ins2`, `ins3`. -/
theorem C1_single_application_inserts_exactly_once
    (X pre b1 w1 b2 w2 b3 w3 id4 w4 u b4 post : List Char)
    (h1 : noStopLit (mh X) pre (mh X ++ (b1 ++ (cid ++ (w1 ++ (strLit ++ (b2 ++ ((w2 ++ mrk) ++ (b3 ++ (cby ++ (w3 ++ (id4 ++ (w4 ++ (u ++ (brk ++ (b4 ++ (cls ++ post)))))))))))))))) = true)
    (h2 : b1.all nonBrace = true)
    (h3 : noStopLit cid b1 (cid ++ (w1 ++ (strLit ++ (b2 ++ ((w2 ++ mrk) ++ (b3 ++ (cby ++ (w3 ++ (id4 ++ (w4 ++ (u ++ (brk ++ (b4 ++ (cls ++ post)))))))))))))) = true)
    (h4 : wsRun w1 = true)
    (h5 : b2.all nonBrace = true)
    (h6 : noStopWsLit mrk b2 ((w2 ++ mrk) ++ (b3 ++ (cby ++ (w3 ++ (id4 ++ (w4 ++ (u ++ (brk ++ (b4 ++ (cls ++ post)))))))))) = true)
    (h7 : wsRun w2 = true)
    (h8 : hasInfix (mh X) (b3 ++ (cby ++ (w3 ++ (id4 ++ (w4 ++ (u ++ (brk ++ (b4 ++ (cls ++ post))))))))) = false)
    (h9 : noStopLit (mh X) pre (mh X ++ ((b1 ++ (cid ++ (w1 ++ (strLit ++ (b2 ++ (ins1 ++ w2)))))) ++ (mrk ++ (b3 ++ (cby ++ (w3 ++ (id4 ++ (w4 ++ (u ++ (brk ++ (b4 ++ (cls ++ post)))))))))))) = true)
    (h10 : noStopLit mrk (b1 ++ (cid ++ (w1 ++ (strLit ++ (b2 ++ (ins1 ++ w2)))))) (mrk ++ (b3 ++ (cby ++ (w3 ++ (id4 ++ (w4 ++ (u ++ (brk ++ (b4 ++ (cls ++ post)))))))))) = true)
    (h11 : b3.all nonBrace = true)
    (h12 : noStopLit cby b3 (cby ++ (w3 ++ (id4 ++ (w4 ++ (u ++ (brk ++ (b4 ++ (cls ++ post)))))))) = true)
    (h13 : wsRun w3 = true)
    (h14 : idOk id4 = true)
    (h15 : wsRun w4 = true)
    (h16 : headNotP isPySpace u = true)
    (h17 : u.all nonBrace = true)
    (h18 : noStopLit brk u (brk ++ (b4 ++ (cls ++ post))) = true)
    (h19 : b4.all nonBrace = true)
    (h20 : noStopLit (mh X) pre (mh X ++ (((b1 ++ (cid ++ (w1 ++ (strLit ++ (b2 ++ (ins1 ++ w2)))))) ++ (mrk ++ (b3 ++ (cby ++ (ins2 ++ (w3 ++ (id4 ++ (w4 ++ (u ++ (brk ++ b4)))))))))) ++ (cls ++ post))) = true) :
    add_organization_id_to_model
        (pre ++ (mh X ++ (b1 ++ (cid ++ (w1 ++ (strLit ++ (b2 ++ ((w2 ++ mrk) ++ (b3 ++ (cby ++ (w3 ++ (id4 ++ (w4 ++ (u ++ (brk ++ (b4 ++ (cls ++ post))))))))))))))))) X =
      pre ++ (mh X ++ (b1 ++ (cid ++ (w1 ++ (strLit ++ (b2 ++ (ins1 ++ (w2 ++ (mrk ++ (b3 ++ (cby ++ (ins2 ++ (w3 ++ (id4 ++ (w4 ++ (u ++ (brk ++ (b4 ++ (ins3 ++ (cls ++ post)))))))))))))))))))) := by
  cases id4 with
  | nil => simp [idOk] at h14
  | cons i0 id4t =>
    rw [idOk, Bool.and_eq_true, List.all_eq_true] at h14
    obtain ⟨hi0, hid4t⟩ := h14
    have hT2T1 : (b4 ++ (cls ++ post)) <:+
        (b3 ++ (cby ++ (w3 ++ ((i0 :: id4t) ++ (w4 ++ (u ++ (brk ++ (b4 ++ (cls ++ post))))))))) :=
      ⟨b3 ++ (cby ++ (w3 ++ ((i0 :: id4t) ++ (w4 ++ (u ++ brk))))), by simp [List.append_assoc]⟩
    have hPostT1 : post <:+
        (b3 ++ (cby ++ (w3 ++ ((i0 :: id4t) ++ (w4 ++ (u ++ (brk ++ (b4 ++ (cls ++ post))))))))) :=
      ⟨b3 ++ (cby ++ (w3 ++ ((i0 :: id4t) ++ (w4 ++ (u ++ (brk ++ (b4 ++ cls))))))),
        by simp [List.append_assoc]⟩
    have hznb : ∀ c ∈ (b1 ++ (cid ++ (w1 ++ (strLit ++ (b2 ++ (ins1 ++ w2)))))), nonBrace c = true :=
      all_nonBrace_append (List.all_eq_true.mp h2) (all_nonBrace_append cid_nonBrace
        (all_nonBrace_append (ws_all_nonBrace (wsRun_all h4)) (all_nonBrace_append strLit_nonBrace
          (all_nonBrace_append (List.all_eq_true.mp h5) (all_nonBrace_append ins1_nonBrace
            (ws_all_nonBrace (wsRun_all h7)))))))
    have hid4nb : ∀ c ∈ (i0 :: id4t), nonBrace c = true := by
      intro c hc
      rcases List.mem_cons.mp hc with h | h
      · rw [h]
        exact identStart_nonBrace hi0
      · exact identCont_nonBrace (hid4t c h)
    have hBnb : ∀ c ∈ ((b1 ++ (cid ++ (w1 ++ (strLit ++ (b2 ++ (ins1 ++ w2)))))) ++
        (mrk ++ (b3 ++ (cby ++ (ins2 ++ (w3 ++ ((i0 :: id4t) ++ (w4 ++ (u ++ (brk ++ b4)))))))))),
        nonBrace c = true :=
      all_nonBrace_append hznb (all_nonBrace_append mrk_nonBrace
        (all_nonBrace_append (List.all_eq_true.mp h11) (all_nonBrace_append cby_nonBrace
          (all_nonBrace_append ins2_nonBrace (all_nonBrace_append (ws_all_nonBrace (wsRun_all h13))
            (all_nonBrace_append hid4nb (all_nonBrace_append (ws_all_nonBrace (wsRun_all h15))
              (all_nonBrace_append (List.all_eq_true.mp h17)
                (all_nonBrace_append brk_nonBrace (List.all_eq_true.mp h19))))))))))
    rw [add_organization_id_to_model]
    rw [fieldPass_det X pre b1 w1 b2 w2
      (b3 ++ (cby ++ (w3 ++ ((i0 :: id4t) ++ (w4 ++ (u ++ (brk ++ (b4 ++ (cls ++ post)))))))))
      (noStopLit_spec h1) (List.all_eq_true.mp h2) (noStopLit_spec h3) (wsRun_ne h4)
      (wsRun_all h4) (List.all_eq_true.mp h5) (noStopWsLit_spec h6) (wsRun_ne h7)
      (wsRun_all h7) (hasInfix_false_suffix h8)]
    rw [show pre ++ (mh X ++ (b1 ++ (cid ++ (w1 ++ (strLit ++ (b2 ++ (ins1 ++ ((w2 ++ mrk) ++
          (b3 ++ (cby ++ (w3 ++ ((i0 :: id4t) ++ (w4 ++ (u ++ (brk ++ (b4 ++ (cls ++ post))))))))))))))))) =
        pre ++ (mh X ++ ((b1 ++ (cid ++ (w1 ++ (strLit ++ (b2 ++ (ins1 ++ w2)))))) ++
          (mrk ++ (b3 ++ (cby ++ (w3 ++ ((i0 :: id4t) ++ (w4 ++ (u ++ (brk ++ (b4 ++ (cls ++ post))))))))))))
      by simp [List.append_assoc]]
    rw [relationPass_det X pre (b1 ++ (cid ++ (w1 ++ (strLit ++ (b2 ++ (ins1 ++ w2))))))
      b3 w3 id4t w4 u (b4 ++ (cls ++ post)) i0
      (noStopLit_spec h9) hznb (noStopLit_spec h10) (List.all_eq_true.mp h11)
      (noStopLit_spec h12) (wsRun_ne h13) (wsRun_all h13) hi0 hid4t (wsRun_ne h15)
      (wsRun_all h15) h16 (List.all_eq_true.mp h17) (noStopLit_spec h18)
      (fun t ht => hasInfix_false_suffix h8 t (ht.trans hT2T1))]
    rw [show pre ++ (mh X ++ ((b1 ++ (cid ++ (w1 ++ (strLit ++ (b2 ++ (ins1 ++ w2)))))) ++
          (mrk ++ (b3 ++ (cby ++ (ins2 ++ (w3 ++ ((i0 :: id4t) ++ (w4 ++ (u ++ (brk ++ (b4 ++ (cls ++ post))))))))))))) =
        pre ++ (mh X ++ (((b1 ++ (cid ++ (w1 ++ (strLit ++ (b2 ++ (ins1 ++ w2)))))) ++
          (mrk ++ (b3 ++ (cby ++ (ins2 ++ (w3 ++ ((i0 :: id4t) ++ (w4 ++ (u ++ (brk ++ b4)))))))))) ++
          (cls ++ post)))
      by simp [List.append_assoc]]
    rw [indexPass_det X pre
      ((b1 ++ (cid ++ (w1 ++ (strLit ++ (b2 ++ (ins1 ++ w2)))))) ++
        (mrk ++ (b3 ++ (cby ++ (ins2 ++ (w3 ++ ((i0 :: id4t) ++ (w4 ++ (u ++ (brk ++ b4))))))))))
      post (noStopLit_spec h20) hBnb
      (fun t ht => hasInfix_false_suffix h8 t (ht.trans hPostT1))]
    simp [List.append_assoc]

theorem C1_witness :
    (idOk "User".toList = true ∧
     noStopLit cid "\n  id          String   @id\n  title       String\n  ".toList
       (cid ++ (" ".toList ++ (strLit ++ ([] ++ (("\n\n  ".toList ++ mrk) ++ ("\n  ".toList ++ (cby ++ ("   ".toList ++ ("User".toList ++ ("     ".toList ++ ("@relation(fields: [createdById], references: [id])\n  contacts    Contact".toList ++ (brk ++ ("\n".toList ++ (cls ++ "\n".toList)))))))))))))) = true ∧
     noStopLit brk "@relation(fields: [createdById], references: [id])\n  contacts    Contact".toList
       (brk ++ ("\n".toList ++ (cls ++ "\n".toList))) = true) ∧
    add_organization_id_to_model
        ([] ++ (mh "Task".toList ++ ("\n  id          String   @id\n  title       String\n  ".toList ++ (cid ++ (" ".toList ++ (strLit ++ ([] ++ (("\n\n  ".toList ++ mrk) ++ ("\n  ".toList ++ (cby ++ ("   ".toList ++ ("User".toList ++ ("     ".toList ++ ("@relation(fields: [createdById], references: [id])\n  contacts    Contact".toList ++ (brk ++ ("\n".toList ++ (cls ++ "\n".toList)))))))))))))))))
        "Task".toList =
      [] ++ (mh "Task".toList ++ ("\n  id          String   @id\n  title       String\n  ".toList ++ (cid ++ (" ".toList ++ (strLit ++ ([] ++ (ins1 ++ ("\n\n  ".toList ++ (mrk ++ ("\n  ".toList ++ (cby ++ (ins2 ++ ("   ".toList ++ ("User".toList ++ ("     ".toList ++ ("@relation(fields: [createdById], references: [id])\n  contacts    Contact".toList ++ (brk ++ ("\n".toList ++ (ins3 ++ (cls ++ "\n".toList)))))))))))))))))))) :=
  ⟨⟨by decide, by decide, by decide⟩,
   C1_single_application_inserts_exactly_once "Task".toList []
     "\n  id          String   @id\n  title       String\n  ".toList " ".toList []
     "\n\n  ".toList "\n  ".toList "   ".toList "User".toList "     ".toList
     "@relation(fields: [createdById], references: [id])\n  contacts    Contact".toList
     "\n".toList "\n".toList
     (by decide) (by decide) (by decide) (by decide) (by decide) (by decide) (by decide)
     (by decide) (by decide) (by decide) (by decide) (by decide) (by decide) (by decide)
     (by decide) (by decide) (by decide) (by decide) (by decide) (by decide)⟩
